import Mathlib

/-
Verification of the workspace-bridge project registry, config loader, path
resolver and tool dispatch layer.

The definitions below are a shallow embedding of the JavaScript source:
  * `src/config/projectLoader.js` (loadProjects, addProject, removeProject,
    getProjectPath),
  * the git tool handlers (getCommitHistory, searchCommits, getCommitDetails,
    getFileHistory, gitBlame, getRepositoryInfo, compareBranches) and
  * the file tool handlers (addProject, removeProject, listProjects,
    listFiles, readFile).

JavaScript objects used as string-keyed registries are embedded as
association lists with JS-object key semantics (assignment updates an
existing key in place, otherwise appends; lookup finds the unique key;
`delete` removes it).  JS truthiness on strings (only `""` is falsy) and on
optional numbers (0 and absent are falsy) is modelled explicitly.
External collaborators (filesystem, simple-git, Date.toISOString) are
modelled as explicit inputs; handlers record each collaborator invocation
in a trace so that call ordering is observable.
-/

set_option autoImplicit false

namespace WorkspaceBridge

/-! ### JS string primitives

`String.prototype.split`, `startsWith`, `substring`, `trim` and `parseInt`
are modelled char-list-exactly (on the inputs the source feeds them). -/

/-- JS `String.prototype.split(sep)` on a single-char separator, char-list level. -/
def splitCharList (c : Char) : List Char → List (List Char)
  | [] => [[]]
  | a :: rest =>
    if a = c then [] :: splitCharList c rest
    else
      match splitCharList c rest with
      | [] => [[a]]
      | g :: gs => (a :: g) :: gs

/-- JS `line.split(c)` for a one-character separator `c`. -/
def jsSplit (c : Char) (s : String) : List String :=
  (splitCharList c s.data).map (fun l => String.mk l)

/-- Char-list test that `pat` starts the list `l`. -/
def startsWithList : List Char → List Char → Bool
  | [], _ => true
  | _ :: _, [] => false
  | a :: ps, b :: ls => a == b && startsWithList ps ls

/-- JS `s.startsWith(pat)`. -/
def jsStartsWith (pat s : String) : Bool :=
  startsWithList pat.data s.data

/-- JS `s.substring(n)` (drop the first `n` chars). -/
def jsSubstring (n : Nat) (s : String) : String :=
  String.mk (s.data.drop n)

/-- JS whitespace for `trim` (the characters relevant to git output). -/
def isJsSpace (c : Char) : Bool :=
  c == ' ' || c == '\t' || c == '\n' || c == '\r'

/-- JS `s.trim()`. -/
def jsTrim (s : String) : String :=
  String.mk (((s.data.dropWhile isJsSpace).reverse.dropWhile isJsSpace).reverse)

/-- Decimal digit character for `r < 10`. -/
def digitChar (r : Nat) : Char := Char.ofNat (48 + r)

/-- Decimal digits of `n`, least significant first (`[]` for `0`). -/
def natRevDigits : Nat → List Char
  | 0 => []
  | n + 1 => digitChar ((n + 1) % 10) :: natRevDigits ((n + 1) / 10)
decreasing_by exact Nat.div_lt_self (Nat.succ_pos n) (by omega)

/-- Decimal rendering of a natural number. -/
def natToStr (n : Nat) : String :=
  if n = 0 then "0" else String.mk (natRevDigits n).reverse

/-- ASCII decimal digit test. -/
def isDigitChar (c : Char) : Bool := 48 ≤ c.toNat && c.toNat ≤ 57

/-- JS `parseInt` restricted to the non-negative inputs the source feeds it:
the leading run of decimal digits, `none` (JS `NaN`) when there is none. -/
def jsParseInt (s : String) : Option Nat :=
  let ds := s.data.takeWhile isDigitChar
  if ds.isEmpty then none
  else some (ds.foldl (fun a c => a * 10 + (c.toNat - 48)) 0)

/-! ### Substring containment (for error-message claims) -/

/-- `containsList small big`: `small` occurs contiguously inside `big`. -/
def containsList (small : List Char) : List Char → Bool
  | [] => small.isEmpty
  | c :: rest => startsWithList small (c :: rest) || containsList small rest

/-- `strContains big small`: `small` is a substring of `big`. -/
def strContains (big small : String) : Bool :=
  containsList small.data big.data

/-! ### Path model (Node `path` module, POSIX flavor)

`path.resolve`, `path.basename` and `path.join` as used by the source. -/

/-- Nonempty `/`-separated segments of a path string. -/
def pathSegs (s : String) : List String :=
  (jsSplit '/' s).filter (fun seg => seg ≠ "")

/-- Separator-joined string list (JS `Array.prototype.join(sep)`). -/
def joinWith (sep : String) : List String → String
  | [] => ""
  | [x] => x
  | x :: y :: rest => x ++ sep ++ joinWith sep (y :: rest)

/-- One step of POSIX normalization: apply segment `seg` to the stack. -/
def normStep (stack : List String) (seg : String) : List String :=
  if seg = "." then stack
  else if seg = ".." then stack.dropLast
  else stack ++ [seg]

/-- Assemble an absolute path from normalized segments. -/
def assembleAbs (segs : List String) : String :=
  "/" ++ joinWith "/" segs

/-- Node `path.resolve(base, p)` for an absolute `base`
(also `path.resolve(p)` with `base` the process working directory). -/
def pathResolve (base p : String) : String :=
  if jsStartsWith "/" p then assembleAbs ((pathSegs p).foldl normStep [])
  else assembleAbs ((pathSegs base ++ pathSegs p).foldl normStep [])

/-- Node `path.basename`. -/
def basename (s : String) : String :=
  ((pathSegs s).getLast?).getD s

/-- Node `path.join(a, b)` (used only to form collaborator call targets). -/
def pathJoin (a b : String) : String :=
  (if jsStartsWith "/" a then "/" else "") ++
    joinWith "/" ((pathSegs a ++ pathSegs b).foldl normStep [])

/-! ### Registry (JS object keyed by project name)

`src/config/projectLoader.js`. -/

/-- The projects registry: insertion-ordered name/path pairs with unique keys,
exactly a JS object used as a map. -/
abbrev Registry := List (String × String)

/-- Property read `projects[name]`. -/
def rlookup : Registry → String → Option String
  | [], _ => none
  | (k, v) :: r, n => if k = n then some v else rlookup r n

/-- Property write `projects[name] = v`: update in place, else append. -/
def rinsert : Registry → String → String → Registry
  | [], n, v => [(n, v)]
  | (k, w) :: r, n, v => if k = n then (k, v) :: r else (k, w) :: rinsert r n v

/-- `delete projects[name]`. -/
def rdelete : Registry → String → Registry
  | [], _ => []
  | (k, w) :: r, n => if k = n then r else (k, w) :: rdelete r n

/-- `Object.keys(projects)`. -/
def rkeys (r : Registry) : List String := r.map Prod.fst

/-- JS `Array.prototype.join(', ')`. -/
def joinComma : List String → String
  | [] => ""
  | [x] => x
  | x :: y :: rest => x ++ ", " ++ joinComma (y :: rest)

/-- The `ProjectNotFound` message built by `getProjectPath`
(`projectLoader.js` lines 86-89). -/
def unknownProjectMessage (projects : Registry) (projectName : String) : String :=
  "Unknown project: " ++ projectName ++ ". Available projects: " ++
    (if (rkeys projects).length > 0 then joinComma (rkeys projects)
     else "none (use addProject tool first)")

/-- `getProjectPath(projects, projectName)` (`projectLoader.js` lines 83-92).
JS truthiness: a missing key and an empty-string path both take the
`ProjectNotFound` branch. -/
def getProjectPath (projects : Registry) (projectName : String) : Except String String :=
  match rlookup projects projectName with
  | some root => if root = "" then Except.error (unknownProjectMessage projects projectName)
                 else Except.ok root
  | none => Except.error (unknownProjectMessage projects projectName)

/-- The `ProjectNotFound` message thrown by `removeProject`. -/
def removeNotFoundMessage (name : String) : String :=
  "Project '" ++ name ++ "' not found"

/-- `removeProject(projects, name)` (`projectLoader.js` lines 68-74); an
error means the registry is left untouched. -/
def removeProject (projects : Registry) (name : String) : Except String Registry :=
  match rlookup projects name with
  | some v => if v = "" then Except.error (removeNotFoundMessage name)
              else Except.ok (rdelete projects name)
  | none => Except.error (removeNotFoundMessage name)

/-- Filesystem collaborator (only what `addProject` needs): the process
working directory and `fs.stat(p).isDirectory()`, where `Except.error`
is a rejected `stat` call (e.g. ENOENT) with its message. -/
structure FileSys where
  cwd : String
  statIsDir : String → Except String Bool

/-- `addProject(projects, name, projectPath)` (`projectLoader.js` lines 54-61). -/
def addProject (fsys : FileSys) (projects : Registry) (name projectPath : String) :
    Except String Registry :=
  match fsys.statIsDir projectPath with
  | Except.error e => Except.error e
  | Except.ok false => Except.error ("Path is not a directory: " ++ projectPath)
  | Except.ok true => Except.ok (rinsert projects name (pathResolve fsys.cwd projectPath))

/-! ### Config loader (`loadProjects`, `projectLoader.js` lines 16-46) -/

/-- One entry of the `.workspace-bridge.json` `projects` array; a field the
JSON does not provide (or provides as a falsy value) is modelled `""`. -/
structure ConfigEntry where
  name : String
  path : String
deriving DecidableEq

/-- The source's well-formedness test `project.name && project.path`. -/
def entryOk (e : ConfigEntry) : Bool :=
  e.name ≠ "" && e.path ≠ ""

/-- Outcome of reading and parsing `<dir>/.workspace-bridge.json`:
missing file (ENOENT), failed read (other error), `JSON.parse` throw,
parsed but `config.projects` absent / not an array, or an entry list. -/
inductive ConfigOutcome where
  | missing
  | readFailure (msg : String)
  | malformed (msg : String)
  | wrongShape
  | entries (l : List ConfigEntry)

/-- Result of `loadProjects`: the populated registry, the derived current
project name, and the warning log from the `catch` branch. -/
structure LoadResult where
  projects : Registry
  currentProjectName : String
  warnings : List String
deriving DecidableEq

/-- The warning logged for a non-ENOENT read/parse failure. -/
def configWarning (msg : String) : String :=
  "Warning: Error reading .workspace-bridge.json: " ++ msg

/-- Registering one config entry (the body of the `for` loop). -/
def loadEntryStep (currentProjectPath : String) (r : Registry) (e : ConfigEntry) : Registry :=
  if entryOk e then rinsert r e.name (pathResolve currentProjectPath e.path) else r

/-- `loadProjects(currentProjectPath)`: registers the current project under
its basename, then folds the config entries over the registry; every
config failure is swallowed (non-ENOENT ones with a warning). -/
def loadProjects (cfg : ConfigOutcome) (currentProjectPath : String) : LoadResult :=
  let currentProjectName := basename currentProjectPath
  let projects : Registry := rinsert [] currentProjectName currentProjectPath
  match cfg with
  | ConfigOutcome.missing => ⟨projects, currentProjectName, []⟩
  | ConfigOutcome.readFailure m => ⟨projects, currentProjectName, [configWarning m]⟩
  | ConfigOutcome.malformed m => ⟨projects, currentProjectName, [configWarning m]⟩
  | ConfigOutcome.wrongShape => ⟨projects, currentProjectName, []⟩
  | ConfigOutcome.entries l =>
      ⟨l.foldl (loadEntryStep currentProjectPath) projects, currentProjectName, []⟩

/-- The last entry of `l` that is well-formed and named `n` (the one whose
write survives the registry's last-write-wins rule). -/
def lastLinkEntry (n : String) : List ConfigEntry → Option ConfigEntry
  | [] => none
  | e :: l =>
    match lastLinkEntry n l with
    | some x => some x
    | none => if entryOk e && e.name == n then some e else none

/-! ### Commits and searchCommits merge logic (`gitTools.js`, searchCommits) -/

/-- Raw commit object produced by the simple-git `log` collaborator. -/
structure RawCommit where
  hash : String
  author_name : String
  author_email : String
  date : String
  message : String
  body : Option String
deriving DecidableEq

/-- Formatted commit as produced by `formatCommit` in `gitHelpers.js` and
by the diff-search line parser; fields undefined in JS are `none`. -/
structure Commit where
  hash : String
  author : Option String
  email : Option String
  date : Option String
  message : String
  body : String
deriving DecidableEq

/-- `formatCommit(commit)` (`gitHelpers.js` lines 35-44); `commit.body || ""`. -/
def formatCommit (c : RawCommit) : Commit :=
  { hash := c.hash
    author := some c.author_name
    email := some c.author_email
    date := some c.date
    message := c.message
    body := c.body.getD "" }

/-- Parsing one `%H|%an|%ae|%ad|%s` line of the pickaxe output
(the destructuring `const [hash, author_name, author_email, date,
...messageParts] = line.split('|')`). -/
def parseDiffLine (line : String) : Commit :=
  let parts := jsSplit '|' line
  { hash := (parts.get? 0).getD ""
    author := parts.get? 1
    email := parts.get? 2
    date := parts.get? 3
    message := joinWith "|" (parts.drop 4)
    body := "(found in code changes)" }

/-- `diffResults.split('\n').filter(line => line.trim()).map(...)`. -/
def parseDiffOutput (s : String) : List Commit :=
  ((jsSplit '\n' s).filter (fun line => jsTrim line ≠ "")).map parseDiffLine

/-- A JS `Map` from hash to commit: insertion-ordered keys, `set` updates
an existing key in place (keeping its position) and otherwise appends. -/
abbrev HashMapJS := List (String × Commit)

/-- `Map.prototype.set` semantics. -/
def hmSet : HashMapJS → String → Commit → HashMapJS
  | [], k, v => [(k, v)]
  | (k', v') :: m, k, v => if k' = k then (k', v) :: m else (k', v') :: hmSet m k v

/-- `Map.prototype.get` semantics. -/
def hmGet : HashMapJS → String → Option Commit
  | [], _ => none
  | (k', v') :: m, k => if k' = k then some v' else hmGet m k

/-- Key list of the JS map, in insertion order. -/
def hmKeys (m : HashMapJS) : List String := m.map Prod.fst

/-- `new Map(l.map(c => [c.hash, c]))`. -/
def buildHashMap (l : List Commit) : HashMapJS :=
  l.foldl (fun m c => hmSet m c.hash c) []

/-- `Array.from(new Map(l.map(c => [c.hash, c])).values())`. -/
def dedupByHash (l : List Commit) : List Commit :=
  (buildHashMap l).map Prod.snd

/-- The searchInDiff merge (`gitTools.js` lines 579-584): concatenate
message results and diff results, deduplicate by hash with JS `Map`
semantics, then `slice(0, maxCount)`. -/
def mergeSearchResults (commits diffCommits : List Commit) (maxCount : Nat) : List Commit :=
  (dedupByHash (commits ++ diffCommits)).take maxCount

/-- The last commit of `l` carrying hash `h` (the value a JS `Map` keeps). -/
def lastWithHash (h : String) : List Commit → Option Commit
  | [] => none
  | c :: l =>
    match lastWithHash h l with
    | some x => some x
    | none => if c.hash == h then some c else none

/-! ### gitBlame porcelain parser (`gitTools.js` lines 736-758) -/

/-- First-40-chars lowercase-hex test, i.e. the regex `^[0-9a-f]{40}`. -/
def isHexLower (c : Char) : Bool :=
  (48 ≤ c.toNat && c.toNat ≤ 57) || (97 ≤ c.toNat && c.toNat ≤ 102)

/-- `hex40 n l`: the first `n` chars of `l` exist and are lowercase hex. -/
def hex40 : Nat → List Char → Bool
  | 0, _ => true
  | _ + 1, [] => false
  | n + 1, c :: cs => isHexLower c && hex40 n cs

/-- `line.match(/^[0-9a-f]{40}/)` as a Bool. -/
def isHashLine (line : String) : Bool :=
  hex40 40 line.data

/-- The working accumulator `currentCommit` of the blame parser. -/
structure PartialBlame where
  hash : String
  lineNum : Option Nat
  author : Option String
  date : Option String
  summary : Option String
deriving DecidableEq

/-- One emitted blame record (one per source line). -/
structure BlameRecord where
  hash : String
  lineNum : Option Nat
  author : Option String
  date : Option String
  summary : Option String
  content : String
deriving DecidableEq

/-- The blame parse loop (`for` over `lines` with `currentCommit`), with
`fmt` standing for the `Date` collaborator
`t => new Date(t * 1000).toISOString()`. -/
def blameGo (fmt : Nat → String) : Option PartialBlame → List String → List BlameRecord
  | _, [] => []
  | cur, line :: rest =>
    if isHashLine line then
      let parts := jsSplit ' ' line
      blameGo fmt (some { hash := (parts.get? 0).getD ""
                          lineNum := (parts.get? 2).bind jsParseInt
                          author := none, date := none, summary := none }) rest
    else
      match cur with
      | none => blameGo fmt none rest
      | some c =>
        if jsStartsWith "author " line then
          blameGo fmt (some { c with author := some (jsSubstring 7 line) }) rest
        else if jsStartsWith "author-time " line then
          blameGo fmt (some { c with date := (jsParseInt (jsSubstring 12 line)).map fmt }) rest
        else if jsStartsWith "summary " line then
          blameGo fmt (some { c with summary := some (jsSubstring 8 line) }) rest
        else if jsStartsWith "\t" line then
          { hash := c.hash, lineNum := c.lineNum, author := c.author
            date := c.date, summary := c.summary
            content := jsSubstring 1 line } :: blameGo fmt none rest
        else
          blameGo fmt (some c) rest

/-- `blameOutput.split('\n')` followed by the parse loop. -/
def parseBlame (fmt : Nat → String) (blameOutput : String) : List BlameRecord :=
  blameGo fmt none (jsSplit '\n' blameOutput)

/-- Parse an already-split attribution stream. -/
def parseBlameLines (fmt : Nat → String) (lines : List String) : List BlameRecord :=
  blameGo fmt none lines

/-- Metadata of one attributed source line of a well-formed stream. -/
structure SourceLine where
  hash : String
  author : String
  time : Nat
  summary : String
  content : String

/-- Well-formedness of one attributed line: the commit id is 40 lowercase
hex characters (as `--line-porcelain` guarantees). -/
def WFSourceLine (l : SourceLine) : Prop :=
  l.hash.data.length = 40 ∧ l.hash.data.all isHexLower = true

instance (l : SourceLine) : Decidable (WFSourceLine l) := by
  unfold WFSourceLine; infer_instance

/-- The `--line-porcelain` group for one source line at final line number
`n`: commit header, author, author-time, summary, tab-prefixed content. -/
def renderGroup (n : Nat) (l : SourceLine) : List String :=
  [ l.hash ++ " " ++ natToStr n ++ " " ++ natToStr n,
    "author " ++ l.author,
    "author-time " ++ natToStr l.time,
    "summary " ++ l.summary,
    "\t" ++ l.content ]

/-- A well-formed attribution stream for consecutive source lines starting
at final line number `s0`. -/
def renderBlame (s0 : Nat) : List SourceLine → List String
  | [] => []
  | l :: rest => renderGroup s0 l ++ renderBlame (s0 + 1) rest

/-- The record the parser must emit for source line `n`. -/
def mkRecord (fmt : Nat → String) (n : Nat) (l : SourceLine) : BlameRecord :=
  { hash := l.hash, lineNum := some n, author := some l.author
    date := some (fmt l.time), summary := some l.summary, content := l.content }

/-- One record per source line, in source-line order. -/
def expectedRecords (fmt : Nat → String) (s0 : Nat) : List SourceLine → List BlameRecord
  | [] => []
  | l :: rest => mkRecord fmt s0 l :: expectedRecords fmt (s0 + 1) rest

/-- JS numeric truthiness of an optional line-bound (`startLine && endLine`):
absent and `0` are both falsy. -/
def numTruthy : Option Nat → Bool
  | none => false
  | some n => n ≠ 0

/-- The argument list built for `git blame` (`gitTools.js` lines 728-732):
the `-L` range is added only when both bounds are truthy. -/
def blameArgs (startLine endLine : Option Nat) (file : String) : List String :=
  ["blame", "--line-porcelain"] ++
    (if numTruthy startLine && numTruthy endLine then
      ["-L" ++ natToStr (startLine.getD 0) ++ "," ++ natToStr (endLine.getD 0)]
     else []) ++ [file]

/-! ### Traced tool handlers

Each async handler is embedded as a function of the collaborator responses
it consumes, in a trace-recording computation: the result is the thrown
error or the structured payload, and the trace lists every filesystem /
version-control collaborator call, in call order. -/

/-- A handler computation: given the calls so far, the outcome and the calls
made (the JS `await` sequence, with exceptions short-circuiting). -/
def CallM (α : Type) : Type := List String → Except String α × List String

/-- Return a value, calling nothing. -/
def pureC {α : Type} (a : α) : CallM α := fun t => (Except.ok a, t)

/-- `throw new Error(e)`. -/
def throwC {α : Type} (e : String) : CallM α := fun t => (Except.error e, t)

/-- Sequencing: run `m`; on success continue with `f`, on error propagate. -/
def bindC {α β : Type} (m : CallM α) (f : α → CallM β) : CallM β := fun t =>
  match m t with
  | (Except.ok a, t') => f a t'
  | (Except.error e, t') => (Except.error e, t')

/-- An awaited collaborator call: record it, then deliver its response. -/
def collab {α : Type} (label : String) (res : Except String α) : CallM α := fun t =>
  (res, t ++ [label])

/-- A synchronous in-core computation (no collaborator involved). -/
def liftRes {α : Type} (res : Except String α) : CallM α := fun t => (res, t)

/-- The handler-level `try/catch` re-throw `Failed to ...: ${error.message}`. -/
def wrapFail {α : Type} (pre : String) (m : CallM α) : CallM α := fun t =>
  match m t with
  | (Except.error e, t') => (Except.error (pre ++ e), t')
  | ok => ok

/-- Run a handler from an empty trace. -/
def runTool {α : Type} (m : CallM α) : Except String α × List String := m []

/-- `getGitInstance(projects, projectName)` (`gitHelpers.js` lines 17-28):
resolve the name first, only then call `git.checkIsRepo()`. -/
def getGitInstanceM (r : Registry) (projectName : String) (repoCheck : Except String Bool) :
    CallM String :=
  bindC (liftRes (getProjectPath r projectName)) (fun root =>
    bindC (collab "git.checkIsRepo" repoCheck) (fun isRepo =>
      if isRepo then pureC root
      else throwC ("Project '" ++ projectName ++ "' at " ++ root ++
        " is not a git repository")))

/-- A directory entry as returned by `fs.readdir(..., { withFileTypes: true })`. -/
structure DirEntry where
  name : String
  isDirectory : Bool
deriving DecidableEq

/-- The `listFiles` payload item. -/
structure FileListing where
  name : String
  type : String
deriving DecidableEq

/-- `listFiles` handler (`fileTools.js`): resolve, then `fs.readdir`. -/
def listFilesTool (r : Registry) (project dir : String)
    (readdir : String → Except String (List DirEntry)) : CallM (List FileListing) :=
  bindC (liftRes (getProjectPath r project)) (fun root =>
    bindC (collab "fs.readdir" (readdir (pathJoin root dir))) (fun items =>
      pureC (items.map (fun item =>
        { name := item.name, type := if item.isDirectory then "directory" else "file" }))))

/-- `readFile` handler (`fileTools.js`): resolve, then `fs.readFile`. -/
def readFileTool (r : Registry) (project file : String)
    (readFile : String → Except String String) : CallM String :=
  bindC (liftRes (getProjectPath r project)) (fun root =>
    bindC (collab "fs.readFile" (readFile (pathJoin root file))) (fun content =>
      pureC content))

/-- `removeProject` handler (`fileTools.js`): synchronous registry delete,
no collaborator at all. -/
def removeProjectTool (r : Registry) (name : String) : CallM Registry :=
  liftRes (removeProject r name)

/-- `getCommitHistory` handler: git instance, then one `git.log` call. -/
def getCommitHistoryTool (r : Registry) (project : String)
    (repoCheck : Except String Bool) (logRes : Except String (List RawCommit)) :
    CallM (List Commit) :=
  wrapFail "Failed to get commit history: "
    (bindC (getGitInstanceM r project repoCheck) (fun _root =>
      bindC (collab "git.log" logRes) (fun log =>
        pureC (log.map formatCommit))))

/-- `searchCommits` handler: message search, then (optionally) the pickaxe
`git.raw` search merged by `mergeSearchResults`. -/
def searchCommitsTool (r : Registry) (project : String) (searchInDiff : Bool)
    (maxCount : Nat) (repoCheck : Except String Bool)
    (logRes : Except String (List RawCommit)) (rawRes : Except String String) :
    CallM (List Commit) :=
  wrapFail "Failed to search commits: "
    (bindC (getGitInstanceM r project repoCheck) (fun _root =>
      bindC (collab "git.log" logRes) (fun log =>
        if searchInDiff then
          bindC (collab "git.raw" rawRes) (fun diffResults =>
            pureC (mergeSearchResults (log.map formatCommit)
              (parseDiffOutput diffResults) maxCount))
        else
          pureC (log.map formatCommit))))

/-- The `getCommitDetails` payload. -/
structure CommitDetails where
  commit : Commit
  stats : String
  diff : String
deriving DecidableEq

/-- `getCommitDetails` handler: git instance, `git.log`, `git.show`,
`git show --stat`. -/
def getCommitDetailsTool (r : Registry) (project commitHash : String)
    (repoCheck : Except String Bool) (logRes : Except String (List RawCommit))
    (showRes statRes : Except String String) : CallM CommitDetails :=
  wrapFail "Failed to get commit details: "
    (bindC (getGitInstanceM r project repoCheck) (fun _root =>
      bindC (collab "git.log" logRes) (fun log =>
        match log.head? with
        | none => throwC ("Commit '" ++ commitHash ++ "' not found")
        | some c =>
          bindC (collab "git.show" showRes) (fun diff =>
            bindC (collab "git.raw" statRes) (fun stats =>
              pureC { commit := formatCommit c, stats := stats, diff := diff })))))

/-- `getFileHistory` handler: git instance, then one `git.log` call. -/
def getFileHistoryTool (r : Registry) (project : String)
    (repoCheck : Except String Bool) (logRes : Except String (List RawCommit)) :
    CallM (List Commit) :=
  wrapFail "Failed to get file history: "
    (bindC (getGitInstanceM r project repoCheck) (fun _root =>
      bindC (collab "git.log" logRes) (fun log =>
        pureC (log.map formatCommit))))

/-- The inner `try { await fs.access } catch { throw FileNotFound }` of the
`gitBlame` handler: the call is attempted, and a rejection is replaced by
the handler's own FileNotFound message. -/
def accessCheck (file project : String) (res : Except String Unit) : CallM Unit := fun t =>
  ( match res with
    | Except.ok _ => Except.ok ()
    | Except.error _ =>
        Except.error ("File '" ++ file ++ "' not found in project '" ++ project ++ "'"),
    t ++ ["fs.access"] )

/-- `gitBlame` handler: git instance, a second synchronous resolution,
`fs.access` (failure re-thrown as FileNotFound), then `git.raw blame`. -/
def gitBlameTool (r : Registry) (project file : String)
    (startLine endLine : Option Nat) (fmt : Nat → String)
    (repoCheck : Except String Bool) (access : String → Except String Unit)
    (rawRes : List String → Except String String) : CallM (List BlameRecord) :=
  wrapFail "Failed to get git blame: "
    (bindC (getGitInstanceM r project repoCheck) (fun _git =>
      bindC (liftRes (getProjectPath r project)) (fun root =>
        bindC (accessCheck file project (access (pathJoin root file))) (fun _ =>
          bindC (collab "git.raw" (rawRes (blameArgs startLine endLine file)))
            (fun blameOutput => pureC (parseBlame fmt blameOutput))))))

/-- Working-tree status as returned by `git.status()`. -/
structure StatusInfo where
  current : String
  modified : List String
  created : List String
  deleted : List String
  renamed : List String
  staged : List String
  ahead : Nat
  behind : Nat
deriving DecidableEq

/-- Branch summary as returned by `git.branch()`. -/
structure BranchInfo where
  all : List String
  current : String
deriving DecidableEq

/-- One remote as returned by `git.getRemotes(true)`. -/
structure RemoteInfo where
  name : String
  fetchUrl : String
  pushUrl : String
deriving DecidableEq

/-- The `getRepositoryInfo` payload. -/
structure RepoInfo where
  currentBranch : String
  branches : BranchInfo
  remotes : List RemoteInfo
  tags : List String
  status : StatusInfo
deriving DecidableEq

/-- `getRepositoryInfo` handler: git instance, then status, branch,
remotes and tags collaborator calls. -/
def getRepositoryInfoTool (r : Registry) (project : String)
    (repoCheck : Except String Bool) (statusRes : Except String StatusInfo)
    (branchRes : Except String BranchInfo) (remotesRes : Except String (List RemoteInfo))
    (tagsRes : Except String (List String)) : CallM RepoInfo :=
  wrapFail "Failed to get repository info: "
    (bindC (getGitInstanceM r project repoCheck) (fun _root =>
      bindC (collab "git.status" statusRes) (fun status =>
        bindC (collab "git.branch" branchRes) (fun branches =>
          bindC (collab "git.getRemotes" remotesRes) (fun remotes =>
            bindC (collab "git.tags" tagsRes) (fun tags =>
              pureC { currentBranch := status.current, branches := branches
                      remotes := remotes, tags := tags, status := status }))))))

/-- The `compareBranches` payload. -/
structure BranchComparison where
  commits : List Commit
  diffStats : String
deriving DecidableEq

/-- `compareBranches` handler: git instance, `git.log from..to`, diff stat. -/
def compareBranchesTool (r : Registry) (project : String)
    (repoCheck : Except String Bool) (logRes : Except String (List RawCommit))
    (statRes : Except String String) : CallM BranchComparison :=
  wrapFail "Failed to compare branches: "
    (bindC (getGitInstanceM r project repoCheck) (fun _root =>
      bindC (collab "git.log" logRes) (fun log =>
        bindC (collab "git.raw" statRes) (fun stats =>
          pureC { commits := log.map formatCommit, diffStats := stats }))))

/-! ### Basic lemmas: substring containment -/

theorem startsWithList_self_append (l t : List Char) : startsWithList l (l ++ t) = true := by
  induction l with
  | nil => rfl
  | cons a ps ih => simp [startsWithList, ih]

theorem containsList_of_startsWith (s big : List Char) (h : startsWithList s big = true) :
    containsList s big = true := by
  cases big with
  | nil =>
    cases s with
    | nil => rfl
    | cons a l => simp [startsWithList] at h
  | cons c rest => simp [containsList, h]

theorem containsList_cons (s : List Char) (c : Char) (rest : List Char)
    (h : containsList s rest = true) : containsList s (c :: rest) = true := by
  simp [containsList, h]

theorem containsList_append_left (s pre t : List Char) (h : containsList s t = true) :
    containsList s (pre ++ t) = true := by
  induction pre with
  | nil => simpa using h
  | cons c ps ih => exact containsList_cons _ _ _ ih

theorem containsList_refl (s : List Char) : containsList s s = true := by
  have h := startsWithList_self_append s []
  rw [List.append_nil] at h
  exact containsList_of_startsWith _ _ h

theorem containsList_append_self (s post : List Char) :
    containsList s (s ++ post) = true :=
  containsList_of_startsWith _ _ (startsWithList_self_append s post)

theorem containsList_append_append (s b c : List Char) :
    containsList s ((s ++ b) ++ c) = true := by
  rw [List.append_assoc]
  exact containsList_append_self _ _

theorem joinComma_contains (l : List String) (k : String) (hk : k ∈ l) :
    containsList k.data (joinComma l).data = true := by
  induction l with
  | nil => cases hk
  | cons x xs ih =>
    cases xs with
    | nil =>
      rw [List.mem_singleton] at hk
      subst hk
      exact containsList_refl k.data
    | cons y ys =>
      rcases List.mem_cons.mp hk with hx | htail
      · subst hx
        rw [joinComma]
        simp only [String.data_append]
        exact containsList_append_append _ _ _
      · rw [joinComma, String.data_append]
        exact containsList_append_left _ _ _ (ih htail)

/-! ### Basic lemmas: registry operations -/

theorem rlookup_rinsert (r : Registry) (k v n : String) :
    rlookup (rinsert r k v) n = if k = n then some v else rlookup r n := by
  induction r with
  | nil => rfl
  | cons p r ih =>
    obtain ⟨k', w⟩ := p
    by_cases hk : k' = k
    · subst hk
      by_cases hn : k' = n <;> simp [rinsert, rlookup, hn]
    · by_cases hn : k' = n
      · subst hn
        have hkn : k ≠ k' := fun he => hk he.symm
        simp [rinsert, rlookup, hk, hkn]
      · simp [rinsert, rlookup, hk, hn, ih]

theorem mem_rkeys_rinsert (r : Registry) (k v n : String) (h : n ∈ rkeys r) :
    n ∈ rkeys (rinsert r k v) := by
  induction r with
  | nil => cases h
  | cons p r ih =>
    obtain ⟨k', w⟩ := p
    by_cases hk : k' = k
    · subst hk
      simpa [rinsert, rkeys] using (by simpa [rkeys] using h)
    · rcases (by simpa [rkeys] using h : n = k' ∨ n ∈ rkeys r) with h1 | h1
      · simp [rinsert, hk, rkeys, h1]
      · simp [rinsert, hk, rkeys]
        exact Or.inr (by simpa [rkeys] using ih h1)

theorem rlookup_eq_none_of_not_mem (r : Registry) (n : String) (h : n ∉ rkeys r) :
    rlookup r n = none := by
  induction r with
  | nil => rfl
  | cons p r ih =>
    obtain ⟨k, v⟩ := p
    have hk : k ≠ n := by
      intro he
      exact h (by simp [rkeys, he])
    have ht : n ∉ rkeys r := fun hm => h (by simp [rkeys]; exact Or.inr (by simpa [rkeys] using hm))
    simp [rlookup, hk, ih ht]

theorem rlookup_mem (r : Registry) (n v : String) (h : rlookup r n = some v) : (n, v) ∈ r := by
  induction r with
  | nil => cases h
  | cons p r ih =>
    obtain ⟨k, w⟩ := p
    by_cases hk : k = n
    · subst hk
      simp [rlookup] at h
      simp [h]
    · simp [rlookup, hk] at h
      exact List.mem_cons_of_mem _ (ih h)

theorem rlookup_rdelete_self (r : Registry) (n : String) (hnd : (rkeys r).Nodup) :
    rlookup (rdelete r n) n = none := by
  induction r with
  | nil => rfl
  | cons p r ih =>
    obtain ⟨k, v⟩ := p
    rw [rkeys, List.map_cons, List.nodup_cons] at hnd
    by_cases hk : k = n
    · subst hk
      simp [rdelete]
      exact rlookup_eq_none_of_not_mem _ _ (by simpa [rkeys] using hnd.1)
    · simp [rdelete, hk, rlookup, ih (by simpa [rkeys] using hnd.2)]

/-! ### Path resolution is never empty -/

theorem assembleAbs_ne_empty (segs : List String) : assembleAbs segs ≠ "" := by
  intro h
  have hd := congrArg String.data h
  rw [assembleAbs, String.data_append] at hd
  rw [show ("/" : String).data = ['/'] from rfl,
    show ("" : String).data = [] from rfl] at hd
  simp at hd

theorem pathResolve_ne_empty (base p : String) : pathResolve base p ≠ "" := by
  unfold pathResolve
  split <;> exact assembleAbs_ne_empty _

/-- Well-formed registry state, per the data model: every stored path is
non-empty (paths are stored in absolute, resolved form) and JS object keys
are unique. -/
def RegistryWF (r : Registry) : Prop :=
  (∀ p ∈ r, p.2 ≠ "") ∧ (rkeys r).Nodup

instance (r : Registry) : Decidable (RegistryWF r) := by
  unfold RegistryWF; infer_instance

/-! ### C1 -/

/-- C1: for every registry state and every name absent from it, `resolve`
(`getProjectPath`) fails with the `ProjectNotFound` error, whose message
contains the `Unknown project: <name>` marker, every currently registered
name, and — when the registry is empty — the none-registered notice. -/
theorem resolve_absent_fails_enumerating (r : Registry) (n : String)
    (h : rlookup r n = none) :
    getProjectPath r n = Except.error (unknownProjectMessage r n) ∧
    strContains (unknownProjectMessage r n) ("Unknown project: " ++ n) = true ∧
    (∀ k ∈ rkeys r, strContains (unknownProjectMessage r n) k = true) ∧
    (r = [] → strContains (unknownProjectMessage r n)
      "none (use addProject tool first)" = true) := by
  refine ⟨by rw [getProjectPath, h], ?_, ?_, ?_⟩
  · rw [strContains, unknownProjectMessage]
    simp only [String.data_append]
    exact containsList_append_append _ _ _
  · intro k hk
    have hne : rkeys r ≠ [] := List.ne_nil_of_mem hk
    have hlen : (rkeys r).length > 0 := List.length_pos.mpr hne
    rw [strContains, unknownProjectMessage, if_pos hlen, String.data_append]
    exact containsList_append_left _ _ _ (joinComma_contains _ _ hk)
  · intro hr
    subst hr
    rw [strContains, unknownProjectMessage]
    rw [show rkeys [] = [] from rfl]
    simp only [List.length_nil, gt_iff_lt, Nat.lt_irrefl, if_false]
    rw [String.data_append]
    exact containsList_append_left _ _ _ (containsList_refl _)

/-- C1 witness: in a fresh registry, `resolve("missing")` fails and the
message contains `Unknown project: missing`. -/
theorem resolve_absent_fails_enumerating_witness :
    rlookup ([] : Registry) "missing" = none ∧
    getProjectPath [] "missing" = Except.error (unknownProjectMessage [] "missing") ∧
    strContains (unknownProjectMessage [] "missing") "Unknown project: missing" = true :=
  ⟨rfl, (resolve_absent_fails_enumerating [] "missing" rfl).1, by decide⟩

/-! ### C3 -/

/-- C3: for every name and every path stat-ed as an existing directory,
`addProject` succeeds and a subsequent `getProjectPath` on the name returns
the absolute (resolved) form of the path. -/
theorem insert_resolve_roundtrip (fsys : FileSys) (r : Registry) (name p : String)
    (h : fsys.statIsDir p = Except.ok true) :
    addProject fsys r name p = Except.ok (rinsert r name (pathResolve fsys.cwd p)) ∧
    getProjectPath (rinsert r name (pathResolve fsys.cwd p)) name =
      Except.ok (pathResolve fsys.cwd p) := by
  refine ⟨by rw [addProject, h], ?_⟩
  rw [getProjectPath, rlookup_rinsert, if_pos rfl]
  exact if_neg (pathResolve_ne_empty _ _)

/-- C3 witness at a concrete directory path. -/
theorem insert_resolve_roundtrip_witness :
    (FileSys.mk "/work" (fun _ => Except.ok true)).statIsDir "/repo/lib" = Except.ok true ∧
    getProjectPath
      (rinsert [] "lib" (pathResolve "/work" "/repo/lib")) "lib" =
      Except.ok (pathResolve "/work" "/repo/lib") :=
  ⟨rfl, (insert_resolve_roundtrip (FileSys.mk "/work" (fun _ => Except.ok true))
    [] "lib" "/repo/lib" rfl).2⟩

/-! ### C4 -/

/-- C4: for every well-formed registry state, `removeProject` on an absent
name fails with `ProjectNotFound` (producing no updated registry, so the
registry is unchanged), and `removeProject` on a present name succeeds,
after which `resolve` on that name fails with `ProjectNotFound`. -/
theorem remove_semantics (r : Registry) (n : String) (hwf : RegistryWF r) :
    (rlookup r n = none → removeProject r n = Except.error (removeNotFoundMessage n)) ∧
    (∀ v, rlookup r n = some v →
      removeProject r n = Except.ok (rdelete r n) ∧
      getProjectPath (rdelete r n) n =
        Except.error (unknownProjectMessage (rdelete r n) n)) := by
  constructor
  · intro h
    rw [removeProject, h]
  · intro v hv
    have hne : v ≠ "" := hwf.1 (n, v) (rlookup_mem r n v hv)
    refine ⟨?_, ?_⟩
    · rw [removeProject, hv]
      exact if_neg hne
    · rw [getProjectPath, rlookup_rdelete_self r n hwf.2]

/-- C4 witness on a concrete one-entry registry. -/
theorem remove_semantics_witness :
    RegistryWF [("app", "/repo/app")] ∧
    removeProject [("app", "/repo/app")] "app" =
      Except.ok (rdelete [("app", "/repo/app")] "app") ∧
    getProjectPath (rdelete [("app", "/repo/app")] "app") "app" =
      Except.error (unknownProjectMessage (rdelete [("app", "/repo/app")] "app") "app") :=
  ⟨by decide, (remove_semantics [("app", "/repo/app")] "app" (by decide)).2
    "/repo/app" rfl⟩

/-! ### Config loader lemmas -/

theorem mem_rkeys_foldl_loadEntryStep (dir : String) (l : List ConfigEntry) (r : Registry)
    (n : String) (h : n ∈ rkeys r) :
    n ∈ rkeys (l.foldl (loadEntryStep dir) r) := by
  induction l generalizing r with
  | nil => simpa using h
  | cons e l ih =>
    rw [List.foldl_cons]
    refine ih _ ?_
    rw [loadEntryStep]
    split
    · exact mem_rkeys_rinsert _ _ _ _ h
    · exact h

theorem rlookup_foldl_loadEntryStep (dir : String) (l : List ConfigEntry) (r : Registry)
    (n : String) :
    rlookup (l.foldl (loadEntryStep dir) r) n =
      match lastLinkEntry n l with
      | some e => some (pathResolve dir e.path)
      | none => rlookup r n := by
  induction l generalizing r with
  | nil => rfl
  | cons e l ih =>
    rw [List.foldl_cons, ih]
    cases hl : lastLinkEntry n l with
    | some x => simp [lastLinkEntry, hl]
    | none =>
      by_cases hc : (entryOk e && e.name == n) = true
      · have hok : entryOk e = true := (Bool.and_eq_true _ _ |>.mp hc).1
        have hn : e.name = n := by
          have := (Bool.and_eq_true _ _ |>.mp hc).2
          exact beq_iff_eq.mp this
        simp [lastLinkEntry, hl, hc, loadEntryStep, hok, rlookup_rinsert, hn]
      · have hsplit : entryOk e = false ∨ e.name ≠ n := by
          cases ht : entryOk e with
          | false => exact Or.inl rfl
          | true =>
            refine Or.inr ?_
            intro he
            exact hc (by simp [ht, he])
        rcases hsplit with hf | hne
        · simp [lastLinkEntry, hl, hc, loadEntryStep, hf]
        · cases ht : entryOk e with
          | false => simp [lastLinkEntry, hl, hc, loadEntryStep, ht]
          | true =>
            have hne' : e.name ≠ n := hne
            simp [lastLinkEntry, hl, hc, loadEntryStep, ht, rlookup_rinsert, hne']

/-! ### C5 -/

/-- C5: config loading is total, and whenever the configuration file is
absent (ENOENT), unreadable, malformed JSON, or of the wrong shape, the
returned registry maps the base name of the current project directory to
that directory; the base name is a registered key for every outcome,
only the non-ENOENT read/parse failures produce a warning, and a missing
file is silently accepted. -/
theorem load_total_registers_current (dir : String) (cfg : ConfigOutcome) :
    basename dir ∈ rkeys (loadProjects cfg dir).projects ∧
    rlookup (loadProjects ConfigOutcome.missing dir).projects (basename dir) = some dir ∧
    (∀ m, rlookup (loadProjects (ConfigOutcome.readFailure m) dir).projects (basename dir) =
      some dir) ∧
    (∀ m, rlookup (loadProjects (ConfigOutcome.malformed m) dir).projects (basename dir) =
      some dir) ∧
    rlookup (loadProjects ConfigOutcome.wrongShape dir).projects (basename dir) = some dir ∧
    (loadProjects ConfigOutcome.missing dir).warnings = [] ∧
    (loadProjects ConfigOutcome.wrongShape dir).warnings = [] ∧
    (∀ m, (loadProjects (ConfigOutcome.readFailure m) dir).warnings = [configWarning m]) ∧
    (∀ m, (loadProjects (ConfigOutcome.malformed m) dir).warnings = [configWarning m]) := by
  refine ⟨?_, ?_, fun m => ?_, fun m => ?_, ?_, rfl, rfl, fun m => rfl, fun m => rfl⟩
  · cases cfg with
    | missing => simp [loadProjects, rinsert, rkeys]
    | readFailure m => simp [loadProjects, rinsert, rkeys]
    | malformed m => simp [loadProjects, rinsert, rkeys]
    | wrongShape => simp [loadProjects, rinsert, rkeys]
    | entries l =>
      refine mem_rkeys_foldl_loadEntryStep _ _ _ _ ?_
      simp [rinsert, rkeys]
  · simp [loadProjects, rinsert, rlookup]
  · simp [loadProjects, rinsert, rlookup]
  · simp [loadProjects, rinsert, rlookup]
  · simp [loadProjects, rinsert, rlookup]

/-! ### C10 -/

/-- C10: when the config file's entry list contains a well-formed entry
named like the current project (the last such entry being `e`), `load`
registers `e`'s resolved path under that name, replacing the current
project's own directory: the name no longer resolves to the current
directory whenever `e`'s resolved path differs from it. -/
theorem config_entry_shadows_current (dir : String) (l : List ConfigEntry) (e : ConfigEntry)
    (hlast : lastLinkEntry (basename dir) l = some e) :
    rlookup (loadProjects (ConfigOutcome.entries l) dir).projects (basename dir) =
      some (pathResolve dir e.path) ∧
    (pathResolve dir e.path ≠ dir →
      rlookup (loadProjects (ConfigOutcome.entries l) dir).projects (basename dir) ≠
        some dir) := by
  have h1 : rlookup (loadProjects (ConfigOutcome.entries l) dir).projects (basename dir) =
      some (pathResolve dir e.path) := by
    show rlookup (l.foldl (loadEntryStep dir) (rinsert [] (basename dir) dir)) (basename dir) =
      some (pathResolve dir e.path)
    rw [rlookup_foldl_loadEntryStep, hlast]
  refine ⟨h1, fun hne hcontra => ?_⟩
  rw [h1] at hcontra
  exact hne (Option.some_injective _ hcontra)

/-- C10 witness: a config entry named `app` shadows current project
`/work/app`. -/
theorem config_entry_shadows_current_witness :
    lastLinkEntry (basename "/work/app") [ConfigEntry.mk "app" "/elsewhere"] =
      some (ConfigEntry.mk "app" "/elsewhere") ∧
    rlookup (loadProjects (ConfigOutcome.entries [ConfigEntry.mk "app" "/elsewhere"])
        "/work/app").projects (basename "/work/app") =
      some (pathResolve "/work/app" "/elsewhere") :=
  ⟨by decide, (config_entry_shadows_current "/work/app" [ConfigEntry.mk "app" "/elsewhere"]
    (ConfigEntry.mk "app" "/elsewhere") (by decide)).1⟩

/-! ### C8 -/

/-- C8: inserting the same name twice with two valid directory paths raises
no uniqueness error and leaves only the second resolved path under the
name; config entries with duplicate names obey the same last-entry-wins
rule. -/
theorem insert_last_write_wins (fsys : FileSys) (r : Registry) (n p1 p2 : String)
    (h1 : fsys.statIsDir p1 = Except.ok true) (h2 : fsys.statIsDir p2 = Except.ok true) :
    (addProject fsys r n p1 = Except.ok (rinsert r n (pathResolve fsys.cwd p1)) ∧
     addProject fsys (rinsert r n (pathResolve fsys.cwd p1)) n p2 =
       Except.ok (rinsert (rinsert r n (pathResolve fsys.cwd p1)) n (pathResolve fsys.cwd p2)) ∧
     rlookup (rinsert (rinsert r n (pathResolve fsys.cwd p1)) n (pathResolve fsys.cwd p2)) n =
       some (pathResolve fsys.cwd p2) ∧
     getProjectPath (rinsert (rinsert r n (pathResolve fsys.cwd p1)) n
         (pathResolve fsys.cwd p2)) n = Except.ok (pathResolve fsys.cwd p2)) ∧
    (∀ (dir : String) (e1 e2 : ConfigEntry), entryOk e1 = true → entryOk e2 = true →
      e2.name = e1.name →
      rlookup (loadProjects (ConfigOutcome.entries [e1, e2]) dir).projects e1.name =
        some (pathResolve dir e2.path)) := by
  constructor
  · refine ⟨by rw [addProject, h1], by rw [addProject, h2], ?_, ?_⟩
    · rw [rlookup_rinsert, if_pos rfl]
    · rw [getProjectPath, rlookup_rinsert, if_pos rfl]
      exact if_neg (pathResolve_ne_empty _ _)
  · intro dir e1 e2 he1 he2 hn
    show rlookup ([e1, e2].foldl (loadEntryStep dir) (rinsert [] (basename dir) dir))
      e1.name = some (pathResolve dir e2.path)
    rw [rlookup_foldl_loadEntryStep]
    have hlast : lastLinkEntry e1.name [e1, e2] = some e2 := by
      rw [lastLinkEntry, lastLinkEntry, lastLinkEntry]
      simp [he2, hn]
    rw [hlast]

/-- C8 witness on concrete paths. -/
theorem insert_last_write_wins_witness :
    (FileSys.mk "/w" (fun _ => Except.ok true)).statIsDir "/a" = Except.ok true ∧
    rlookup (rinsert (rinsert [] "x" (pathResolve "/w" "/a")) "x" (pathResolve "/w" "/b"))
      "x" = some (pathResolve "/w" "/b") :=
  ⟨rfl, (insert_last_write_wins (FileSys.mk "/w" (fun _ => Except.ok true)) [] "x" "/a" "/b"
    rfl rfl).1.2.2.1⟩

/-! ### JS Map lemmas for the searchCommits merge -/

theorem hmGet_hmSet (m : HashMapJS) (k : String) (v : Commit) (n : String) :
    hmGet (hmSet m k v) n = if k = n then some v else hmGet m n := by
  induction m with
  | nil => rfl
  | cons p m ih =>
    obtain ⟨k', w⟩ := p
    by_cases hk : k' = k
    · subst hk
      by_cases hn : k' = n <;> simp [hmSet, hmGet, hn]
    · by_cases hn : k' = n
      · subst hn
        have hkn : k ≠ k' := fun he => hk he.symm
        simp [hmSet, hmGet, hk, hkn]
      · simp [hmSet, hmGet, hk, hn, ih]

theorem lastWithHash_hash (h : String) (l : List Commit) (c : Commit)
    (hc : lastWithHash h l = some c) : c.hash = h := by
  induction l with
  | nil => cases hc
  | cons x l ih =>
    rw [lastWithHash] at hc
    cases hl : lastWithHash h l with
    | some y =>
      rw [hl] at hc
      cases hc
      exact ih hl
    | none =>
      rw [hl] at hc
      by_cases hx : (x.hash == h) = true
      · rw [if_pos hx] at hc
        cases hc
        exact beq_iff_eq.mp hx
      · rw [if_neg hx] at hc
        cases hc

theorem hmGet_foldl_hmSet (l : List Commit) :
    ∀ (m : HashMapJS) (h : String),
      hmGet (l.foldl (fun m c => hmSet m c.hash c) m) h =
        match lastWithHash h l with
        | some c => some c
        | none => hmGet m h := by
  induction l with
  | nil => intro m h; rfl
  | cons c l ih =>
    intro m h
    rw [List.foldl_cons, ih]
    cases hl : lastWithHash h l with
    | some x => simp [lastWithHash, hl]
    | none =>
      by_cases hx : (c.hash == h) = true
      · have hxx : c.hash = h := beq_iff_eq.mp hx
        simp [lastWithHash, hl, hx, hmGet_hmSet, hxx]
      · have hxx : c.hash ≠ h := by
          intro he
          exact hx (by simp [he])
        simp [lastWithHash, hl, hx, hmGet_hmSet, hxx]

theorem hmKeys_hmSet (m : HashMapJS) (k : String) (v : Commit) :
    hmKeys (hmSet m k v) = if k ∈ hmKeys m then hmKeys m else hmKeys m ++ [k] := by
  induction m with
  | nil => rfl
  | cons p m ih =>
    obtain ⟨k', w⟩ := p
    by_cases hk : k' = k
    · subst hk
      simp [hmSet, hmKeys]
    · simp only [hmSet, if_neg hk, hmKeys, List.map_cons]
      rw [show hmKeys (hmSet m k v) = (hmSet m k v).map Prod.fst from rfl] at ih
      rw [ih]
      have hne : ¬(k = k') := fun he => hk he.symm
      by_cases hmem : k ∈ m.map Prod.fst
      · simp [hmKeys, List.mem_cons, hne, hmem]
      · simp [hmKeys, List.mem_cons, hne, hmem]

theorem nodup_append_singleton (l : List String) (k : String) (hnd : l.Nodup)
    (hk : k ∉ l) : (l ++ [k]).Nodup := by
  induction l with
  | nil => simp
  | cons x l ih =>
    rw [List.nodup_cons] at hnd
    have hx : k ≠ x := fun he => hk (by simp [he])
    rw [List.cons_append, List.nodup_cons]
    constructor
    · intro hmem
      rcases List.mem_append.mp hmem with h1 | h1
      · exact hnd.1 h1
      · rw [List.mem_singleton] at h1
        exact hx h1.symm
    · exact ih hnd.2 (fun hm => hk (List.mem_cons_of_mem _ hm))

/-- The invariant of the dedup map: every stored value carries its key as
hash, and keys are unique. -/
def HashMapWF (m : HashMapJS) : Prop :=
  (∀ p ∈ m, p.2.hash = p.1) ∧ (hmKeys m).Nodup

theorem hmSet_coherent (m : HashMapJS) (k : String) (v : Commit)
    (hm : ∀ p ∈ m, p.2.hash = p.1) (hv : v.hash = k) :
    ∀ p ∈ hmSet m k v, p.2.hash = p.1 := by
  induction m with
  | nil =>
    intro p hp
    rw [hmSet, List.mem_singleton] at hp
    subst hp
    exact hv
  | cons q m ih =>
    obtain ⟨k', w⟩ := q
    intro p hp
    by_cases hk : k' = k
    · subst hk
      rw [hmSet, if_pos rfl] at hp
      rcases List.mem_cons.mp hp with h1 | h1
      · subst h1
        exact hv
      · exact hm p (List.mem_cons_of_mem _ h1)
    · rw [hmSet, if_neg hk] at hp
      rcases List.mem_cons.mp hp with h1 | h1
      · subst h1
        exact hm (k', w) (List.mem_cons_self _ _)
      · exact ih (fun q hq => hm q (List.mem_cons_of_mem _ hq)) p h1

theorem hashMapWF_hmSet (m : HashMapJS) (k : String) (v : Commit)
    (hm : HashMapWF m) (hv : v.hash = k) : HashMapWF (hmSet m k v) := by
  refine ⟨hmSet_coherent m k v hm.1 hv, ?_⟩
  rw [hmKeys_hmSet]
  by_cases hmem : k ∈ hmKeys m
  · rw [if_pos hmem]
    exact hm.2
  · rw [if_neg hmem]
    exact nodup_append_singleton _ _ hm.2 hmem

theorem hashMapWF_foldl (l : List Commit) :
    ∀ m, HashMapWF m → HashMapWF (l.foldl (fun m c => hmSet m c.hash c) m) := by
  induction l with
  | nil => intro m hm; exact hm
  | cons c l ih =>
    intro m hm
    rw [List.foldl_cons]
    exact ih _ (hashMapWF_hmSet _ _ _ hm rfl)

theorem hashMapWF_buildHashMap (l : List Commit) : HashMapWF (buildHashMap l) :=
  hashMapWF_foldl l [] ⟨fun p hp => absurd hp (List.not_mem_nil p), List.nodup_nil⟩

theorem hmGet_of_mem (m : HashMapJS) (p : String × Commit) (hnd : (hmKeys m).Nodup)
    (hp : p ∈ m) : hmGet m p.1 = some p.2 := by
  induction m with
  | nil => cases hp
  | cons q m ih =>
    obtain ⟨k, v⟩ := q
    rw [hmKeys, List.map_cons, List.nodup_cons] at hnd
    rcases List.mem_cons.mp hp with h1 | h1
    · subst h1
      rw [hmGet, if_pos rfl]
    · have hk : k ≠ p.1 := by
        intro he
        refine hnd.1 ?_
        rw [he]
        exact List.mem_map.mpr ⟨p, h1, rfl⟩
      rw [hmGet, if_neg hk]
      exact ih hnd.2 h1

theorem mem_of_hmGet (m : HashMapJS) (h : String) (c : Commit)
    (hg : hmGet m h = some c) : (h, c) ∈ m := by
  induction m with
  | nil => cases hg
  | cons q m ih =>
    obtain ⟨k, v⟩ := q
    by_cases hk : k = h
    · subst hk
      rw [hmGet, if_pos rfl] at hg
      cases hg
      exact List.mem_cons_self _ _
    · rw [hmGet, if_neg hk] at hg
      exact List.mem_cons_of_mem _ (ih hg)

theorem lastWithHash_of_mem_hash (l : List Commit) (h : String)
    (hh : h ∈ l.map (fun c => c.hash)) : ∃ c, lastWithHash h l = some c := by
  induction l with
  | nil => cases hh
  | cons x l ih =>
    rw [lastWithHash]
    cases hl : lastWithHash h l with
    | some y => exact ⟨y, rfl⟩
    | none =>
      rw [List.map_cons] at hh
      rcases List.mem_cons.mp hh with h1 | h1
      · rw [if_pos (by simp [h1])]
        exact ⟨x, rfl⟩
      · rcases ih h1 with ⟨c, hc⟩
        rw [hl] at hc
        cases hc

theorem dedupByHash_last_write (l : List Commit) (c : Commit) (hc : c ∈ dedupByHash l) :
    lastWithHash c.hash l = some c := by
  rw [dedupByHash] at hc
  rcases List.mem_map.mp hc with ⟨p, hp, hpc⟩
  have hwf := hashMapWF_buildHashMap l
  have hhash : p.2.hash = p.1 := hwf.1 p hp
  have hget : hmGet (buildHashMap l) p.1 = some p.2 := hmGet_of_mem _ p hwf.2 hp
  rw [buildHashMap, hmGet_foldl_hmSet] at hget
  subst hpc
  rw [hhash]
  cases hl : lastWithHash p.1 l with
  | some x =>
    rw [hl] at hget
    cases hget
    rfl
  | none =>
    rw [hl] at hget
    cases hget

theorem dedupByHash_covers (l : List Commit) (h : String)
    (hh : h ∈ l.map (fun c => c.hash)) : ∃ c ∈ dedupByHash l, c.hash = h := by
  rcases lastWithHash_of_mem_hash l h hh with ⟨c, hc⟩
  have hget : hmGet (buildHashMap l) h = some c := by
    rw [buildHashMap, hmGet_foldl_hmSet, hc]
  have hmem := mem_of_hmGet _ _ _ hget
  refine ⟨c, ?_, lastWithHash_hash h l c hc⟩
  rw [dedupByHash]
  exact List.mem_map.mpr ⟨(h, c), hmem, rfl⟩

theorem dedupByHash_hashes_eq_keys (l : List Commit) :
    (dedupByHash l).map (fun c => c.hash) = hmKeys (buildHashMap l) := by
  rw [dedupByHash, hmKeys, List.map_map]
  exact List.map_congr_left (fun p hp => (hashMapWF_buildHashMap l).1 p hp)

/-! ### C2 -/

/-- C2 counterexample input: the commit as the message search reports it. -/
def msgHit : Commit :=
  { hash := "a1b2", author := some "Alice", email := some "a@x", date := some "2024-01-01"
    message := "fix parser", body := "" }

/-- C2 counterexample input: the same commit as the diff (pickaxe) search
reconstructs it (note the `(found in code changes)` body). -/
def diffHit : Commit :=
  { hash := "a1b2", author := some "Alice", email := some "a@x", date := some "2024-01-01"
    message := "fix parser", body := "(found in code changes)" }

/-- C2 counterexample: on a hash collision the merged list keeps the
diff-search entry, not the message-search entry — `new Map` keeps the last
value written for a key, so the claim's "message-search entry takes
precedence" fails at this concrete input. -/
theorem searchCommits_msg_precedence_fails :
    parseDiffOutput "a1b2|Alice|a@x|2024-01-01|fix parser" = [diffHit] ∧
    mergeSearchResults [msgHit] [diffHit] 50 = [diffHit] ∧
    mergeSearchResults [msgHit] [diffHit] 50 ≠ [msgHit] := by
  refine ⟨by decide, by decide, by decide⟩

/-- C2 (amended): with `searchInDiff=true` the result is the message-search
results merged with the diff-search results, deduplicated by commit hash
with the first occurrence keeping its position but the LAST entry written
for a hash (the diff-search entry on a collision) providing the data, and
the merged list is truncated to `maxCount` after the merge. -/
theorem searchCommits_merge_semantics (commits diffCommits : List Commit) (maxCount : Nat) :
    mergeSearchResults commits diffCommits maxCount =
      (dedupByHash (commits ++ diffCommits)).take maxCount ∧
    (∀ c ∈ dedupByHash (commits ++ diffCommits),
      lastWithHash c.hash (commits ++ diffCommits) = some c) ∧
    (∀ h ∈ (commits ++ diffCommits).map (fun c => c.hash),
      ∃ c ∈ dedupByHash (commits ++ diffCommits), c.hash = h) ∧
    ((dedupByHash (commits ++ diffCommits)).map (fun c => c.hash)).Nodup := by
  refine ⟨rfl, fun c hc => dedupByHash_last_write _ c hc,
    fun h hh => dedupByHash_covers _ h hh, ?_⟩
  rw [dedupByHash_hashes_eq_keys]
  exact (hashMapWF_buildHashMap _).2

/-! ### C7 -/

/-- `leadsTo l₁ l₂`: `l₂` extends `l₁` on the right. -/
def leadsTo (l₁ l₂ : List String) : Prop := ∃ t, l₁ ++ t = l₂

theorem leadsTo_refl (l : List String) : leadsTo l l := ⟨[], List.append_nil l⟩

theorem leadsTo_trans {a b c : List String} (h1 : leadsTo a b) (h2 : leadsTo b c) :
    leadsTo a c := by
  rcases h1 with ⟨t1, ht1⟩
  rcases h2 with ⟨t2, ht2⟩
  exact ⟨t1 ++ t2, by rw [← List.append_assoc, ht1, ht2]⟩

theorem hmKeys_foldl_leadsTo (l : List Commit) :
    ∀ m, leadsTo (hmKeys m) (hmKeys (l.foldl (fun m c => hmSet m c.hash c) m)) := by
  induction l with
  | nil => intro m; exact leadsTo_refl _
  | cons c l ih =>
    intro m
    rw [List.foldl_cons]
    refine leadsTo_trans ?_ (ih _)
    rw [hmKeys_hmSet]
    by_cases hmem : c.hash ∈ hmKeys m
    · rw [if_pos hmem]
      exact leadsTo_refl _
    · rw [if_neg hmem]
      exact ⟨[c.hash], rfl⟩

theorem hmKeys_foldl_length (l : List Commit) :
    ∀ m, (hmKeys (l.foldl (fun m c => hmSet m c.hash c) m)).length ≤
      (hmKeys m).length + l.length := by
  induction l with
  | nil => intro m; simp
  | cons c l ih =>
    intro m
    rw [List.foldl_cons]
    refine (ih _).trans ?_
    rw [hmKeys_hmSet]
    by_cases hmem : c.hash ∈ hmKeys m
    · rw [if_pos hmem]
      simp [List.length_cons]
    · rw [if_neg hmem]
      simp [List.length_append, List.length_cons]
      omega

theorem mem_keys_buildHashMap (l : List Commit) (h : String)
    (hh : h ∈ l.map (fun c => c.hash)) : h ∈ hmKeys (buildHashMap l) := by
  rw [← dedupByHash_hashes_eq_keys]
  rcases dedupByHash_covers l h hh with ⟨c, hc, hch⟩
  exact List.mem_map.mpr ⟨c, hc, hch⟩

/-- C7: for a history with at least one message match and one diff-only
match, every commit hash of the message-only search (`searchInDiff=false`
returns the message results unchanged) appears among the hashes the
merged `searchInDiff=true` search returns, for the same `maxCount`
(the `git log -n maxCount` collaborator yields at most `maxCount`
message results, hence the length hypothesis). -/
theorem searchCommits_subset_hashes (msg diff : List Commit) (maxCount : Nat)
    (hlen : msg.length ≤ maxCount) (hne : msg ≠ [])
    (hdiffonly : ∃ d ∈ diff, d.hash ∉ msg.map (fun c => c.hash)) :
    ∀ h ∈ msg.map (fun c => c.hash),
      h ∈ (mergeSearchResults msg diff maxCount).map (fun c => c.hash) := by
  intro h hh
  rw [mergeSearchResults, List.map_take, dedupByHash_hashes_eq_keys]
  have hmem0 : h ∈ hmKeys (buildHashMap msg) := mem_keys_buildHashMap msg h hh
  have hlen0 : (hmKeys (buildHashMap msg)).length ≤ maxCount := by
    have hb := hmKeys_foldl_length msg []
    rw [show (msg.foldl (fun m c => hmSet m c.hash c) []) = buildHashMap msg from rfl] at hb
    have hz : (hmKeys ([] : HashMapJS)).length = 0 := rfl
    omega
  have hlead : leadsTo (hmKeys (buildHashMap msg)) (hmKeys (buildHashMap (msg ++ diff))) := by
    rw [buildHashMap, buildHashMap, List.foldl_append]
    exact hmKeys_foldl_leadsTo diff _
  rcases hlead with ⟨t, ht⟩
  rw [← ht, List.take_append_eq_append_take,
    List.take_of_length_le hlen0]
  exact List.mem_append_left _ hmem0

/-- C7 witness: a one-message-match, one-diff-only-match history. -/
theorem searchCommits_subset_hashes_witness :
    ([msgHit] : List Commit).length ≤ 50 ∧
    ([msgHit] : List Commit) ≠ [] ∧
    (∃ d ∈ [Commit.mk "ffee" (some "Bob") (some "b@x") (some "2024-02-02") "refactor"
      "(found in code changes)"], d.hash ∉ ([msgHit] : List Commit).map (fun c => c.hash)) ∧
    ∀ h ∈ ([msgHit] : List Commit).map (fun c => c.hash),
      h ∈ (mergeSearchResults [msgHit]
        [Commit.mk "ffee" (some "Bob") (some "b@x") (some "2024-02-02") "refactor"
          "(found in code changes)"] 50).map (fun c => c.hash) :=
  ⟨by decide, by decide, by decide,
    searchCommits_subset_hashes [msgHit]
      [Commit.mk "ffee" (some "Bob") (some "b@x") (some "2024-02-02") "refactor"
        "(found in code changes)"] 50 (by decide) (by decide) (by decide)⟩

/-! ### Decimal digits: rendering and parseInt round-trip -/

theorem digitChar_toNat (r : Nat) (h : r < 10) : (digitChar r).toNat = 48 + r := by
  interval_cases r <;> rfl

theorem isDigitChar_digitChar (r : Nat) (h : r < 10) : isDigitChar (digitChar r) = true := by
  interval_cases r <;> rfl

theorem natRevDigits_all_digits (n : Nat) : (natRevDigits n).all isDigitChar = true := by
  induction n using Nat.strong_induction_on with
  | _ n ih =>
    cases n with
    | zero => simp [natRevDigits]
    | succ m =>
      rw [natRevDigits, List.all_cons]
      refine (Bool.and_eq_true _ _).mpr ⟨?_, ?_⟩
      · exact isDigitChar_digitChar _ (Nat.mod_lt _ (by omega))
      · exact ih ((m + 1) / 10) (Nat.div_lt_self (Nat.succ_pos m) (by omega))

theorem foldl_digits_value (n : Nat) :
    ∀ acc : Nat, ((natRevDigits n).reverse).foldl (fun a c => a * 10 + (c.toNat - 48)) acc =
      acc * 10 ^ (natRevDigits n).length + n := by
  induction n using Nat.strong_induction_on with
  | _ n ih =>
    cases n with
    | zero => intro acc; simp [natRevDigits]
    | succ m =>
      intro acc
      rw [natRevDigits, List.reverse_cons, List.foldl_append,
        ih ((m + 1) / 10) (Nat.div_lt_self (Nat.succ_pos m) (by omega)) acc,
        List.length_cons, List.foldl_cons, List.foldl_nil,
        digitChar_toNat _ (Nat.mod_lt _ (by omega))]
      have he : 48 + (m + 1) % 10 - 48 = (m + 1) % 10 := by omega
      rw [he, pow_succ]
      have hexp : (acc * 10 ^ (natRevDigits ((m + 1) / 10)).length + (m + 1) / 10) * 10 +
          (m + 1) % 10 =
          acc * (10 ^ (natRevDigits ((m + 1) / 10)).length * 10) +
            (10 * ((m + 1) / 10) + (m + 1) % 10) := by ring
      rw [hexp, Nat.div_add_mod]

theorem takeWhile_all_eq (p : Char → Bool) (l : List Char) (h : l.all p = true) :
    l.takeWhile p = l := by
  induction l with
  | nil => rfl
  | cons c cs ih =>
    rw [List.all_cons] at h
    have h1 := ((Bool.and_eq_true _ _).mp h).1
    have h2 := ((Bool.and_eq_true _ _).mp h).2
    simp [List.takeWhile_cons, h1, ih h2]

theorem jsParseInt_natToStr (n : Nat) : jsParseInt (natToStr n) = some n := by
  cases n with
  | zero => rfl
  | succ m =>
    rw [natToStr, if_neg (Nat.succ_ne_zero m)]
    have hall : ((natRevDigits (m + 1)).reverse).all isDigitChar = true := by
      rw [List.all_reverse]
      exact natRevDigits_all_digits (m + 1)
    simp only [jsParseInt]
    rw [takeWhile_all_eq _ _ hall]
    have hne : ((natRevDigits (m + 1)).reverse).isEmpty = false := by
      rw [natRevDigits, List.reverse_cons]
      simp
    rw [hne]
    simp only [Bool.false_eq_true, if_false]
    rw [foldl_digits_value (m + 1) 0]
    simp

theorem natToStr_all_digits (n : Nat) : (natToStr n).data.all isDigitChar = true := by
  cases n with
  | zero => rfl
  | succ m =>
    rw [natToStr, if_neg (Nat.succ_ne_zero m)]
    rw [show (String.mk (natRevDigits (m + 1)).reverse).data =
      (natRevDigits (m + 1)).reverse from rfl]
    rw [List.all_reverse]
    exact natRevDigits_all_digits (m + 1)

/-! ### Hash-header recognition and header splitting -/

theorem hex40_of_append (l r : List Char) :
    ∀ n, l.length = n → l.all isHexLower = true → hex40 n (l ++ r) = true := by
  induction l with
  | nil =>
    intro n hn _
    rw [List.length_nil] at hn
    subst hn
    rfl
  | cons c cs ih =>
    intro n hn hall
    rw [List.length_cons] at hn
    subst hn
    rw [List.cons_append, hex40]
    rw [List.all_cons] at hall
    rw [((Bool.and_eq_true _ _).mp hall).1, ih _ rfl ((Bool.and_eq_true _ _).mp hall).2]
    rfl

theorem splitCharList_no_sep (c : Char) (l : List Char) (h : c ∉ l) :
    splitCharList c l = [l] := by
  induction l with
  | nil => rfl
  | cons a rest ih =>
    have ha : ¬(a = c) := fun he => h (by simp [he])
    have hrest : c ∉ rest := fun hm => h (List.mem_cons_of_mem _ hm)
    rw [splitCharList, if_neg ha, ih hrest]

theorem splitCharList_append_sep (c : Char) (l rest : List Char) (h : c ∉ l) :
    splitCharList c (l ++ c :: rest) = l :: splitCharList c rest := by
  induction l with
  | nil => rw [List.nil_append, splitCharList, if_pos rfl]
  | cons a as ih =>
    have ha : ¬(a = c) := fun he => h (by simp [he])
    have has : c ∉ as := fun hm => h (List.mem_cons_of_mem _ hm)
    rw [List.cons_append, splitCharList, if_neg ha, ih has]

theorem not_mem_space_of_all_hex (l : List Char) (h : l.all isHexLower = true) :
    ' ' ∉ l := by
  intro hm
  have hx := List.all_eq_true.mp h ' ' hm
  exact absurd hx (by decide)

theorem not_mem_space_of_all_digits (l : List Char) (h : l.all isDigitChar = true) :
    ' ' ∉ l := by
  intro hm
  have hx := List.all_eq_true.mp h ' ' hm
  exact absurd hx (by decide)

/-! ### Blame parser stepping lemmas -/

theorem blameGo_author_step (fmt : Nat → String) (c : PartialBlame) (a : String)
    (rest : List String) :
    blameGo fmt (some c) (("author " ++ a) :: rest) =
      blameGo fmt (some { c with author := some a }) rest := rfl

theorem blameGo_summary_step (fmt : Nat → String) (c : PartialBlame) (s : String)
    (rest : List String) :
    blameGo fmt (some c) (("summary " ++ s) :: rest) =
      blameGo fmt (some { c with summary := some s }) rest := rfl

theorem blameGo_tab_step (fmt : Nat → String) (c : PartialBlame) (s : String)
    (rest : List String) :
    blameGo fmt (some c) (("\t" ++ s) :: rest) =
      { hash := c.hash, lineNum := c.lineNum, author := c.author, date := c.date,
        summary := c.summary, content := s } :: blameGo fmt none rest := rfl

theorem blameGo_time_step (fmt : Nat → String) (c : PartialBlame) (t : Nat)
    (rest : List String) :
    blameGo fmt (some c) (("author-time " ++ natToStr t) :: rest) =
      blameGo fmt (some { c with date := some (fmt t) }) rest := by
  have h0 : blameGo fmt (some c) (("author-time " ++ natToStr t) :: rest) =
      blameGo fmt (some { c with date := (jsParseInt (natToStr t)).map fmt }) rest := rfl
  rw [h0, jsParseInt_natToStr]
  rfl

theorem blameGo_hashline_step (fmt : Nat → String) (cur : Option PartialBlame)
    (line : String) (rest : List String) (h : isHashLine line = true) :
    blameGo fmt cur (line :: rest) =
      blameGo fmt (some { hash := ((jsSplit ' ' line).get? 0).getD ""
                          lineNum := ((jsSplit ' ' line).get? 2).bind jsParseInt
                          author := none, date := none, summary := none }) rest := by
  rw [blameGo.eq_def]
  simp [h]

theorem blameGo_header_step (fmt : Nat → String) (cur : Option PartialBlame)
    (hash : String) (o n : Nat) (rest : List String)
    (h40 : hash.data.length = 40) (hhex : hash.data.all isHexLower = true) :
    blameGo fmt cur ((hash ++ " " ++ natToStr o ++ " " ++ natToStr n) :: rest) =
      blameGo fmt (some { hash := hash, lineNum := some n, author := none
                          date := none, summary := none }) rest := by
  have hdata : (hash ++ " " ++ natToStr o ++ " " ++ natToStr n).data =
      hash.data ++ ' ' :: ((natToStr o).data ++ ' ' :: (natToStr n).data) := by
    simp only [String.data_append]
    simp [List.append_assoc]
  have hhash : isHashLine (hash ++ " " ++ natToStr o ++ " " ++ natToStr n) = true := by
    rw [isHashLine, hdata]
    exact hex40_of_append _ _ _ h40 hhex
  have hsplit : jsSplit ' ' (hash ++ " " ++ natToStr o ++ " " ++ natToStr n) =
      [hash, natToStr o, natToStr n] := by
    rw [jsSplit, hdata]
    rw [splitCharList_append_sep _ _ _ (not_mem_space_of_all_hex _ hhex)]
    rw [splitCharList_append_sep _ _ _
      (not_mem_space_of_all_digits _ (natToStr_all_digits o))]
    rw [splitCharList_no_sep _ _ (not_mem_space_of_all_digits _ (natToStr_all_digits n))]
    rfl
  rw [blameGo_hashline_step fmt cur _ rest hhash, hsplit]
  have hg0 : (([hash, natToStr o, natToStr n] : List String).get? 0).getD "" = hash := rfl
  have hg2 : (([hash, natToStr o, natToStr n] : List String).get? 2).bind jsParseInt =
      jsParseInt (natToStr n) := rfl
  rw [hg0, hg2, jsParseInt_natToStr]

/-- One attribution group parses to exactly one record and resets the
accumulator (whatever the accumulator held before the group). -/
theorem blameGo_group (fmt : Nat → String) (cur : Option PartialBlame) (l : SourceLine)
    (n : Nat) (rest : List String) (hwf : WFSourceLine l) :
    blameGo fmt cur (renderGroup n l ++ rest) =
      mkRecord fmt n l :: blameGo fmt none rest := by
  rw [renderGroup]
  simp only [List.cons_append, List.nil_append]
  rw [blameGo_header_step fmt cur l.hash n n _ hwf.1 hwf.2]
  rw [blameGo_author_step, blameGo_time_step, blameGo_summary_step, blameGo_tab_step]
  rfl

theorem expectedRecords_length (fmt : Nat → String) (s0 : Nat) (ls : List SourceLine) :
    (expectedRecords fmt s0 ls).length = ls.length := by
  induction ls generalizing s0 with
  | nil => rfl
  | cons l ls ih => simp [expectedRecords, ih]

theorem expectedRecords_lineNums (fmt : Nat → String) (s0 : Nat) (ls : List SourceLine) :
    (expectedRecords fmt s0 ls).map (fun b => b.lineNum) =
      (List.range' s0 ls.length).map some := by
  induction ls generalizing s0 with
  | nil => rfl
  | cons l ls ih =>
    rw [expectedRecords, List.map_cons, List.length_cons, List.range'_succ, List.map_cons,
      ih]
    rfl

/-! ### C6 -/

/-- C6: on every well-formed attribution stream the parser emits exactly
one record per source line, in source-line order: each record is finalized
at the tab-prefixed content line and the accumulator is reset, so the
output is exactly one record per rendered line group, carrying consecutive
line numbers from `s0`.  With both bounds given, `s0 = startLine` and
`ls.length = endLine - startLine + 1` cover the inclusive range; with no
bounds, `s0 = 1` and `ls` the whole file. -/
theorem gitBlame_one_record_per_line (fmt : Nat → String) (s0 : Nat) (ls : List SourceLine)
    (hwf : ∀ l ∈ ls, WFSourceLine l) :
    parseBlameLines fmt (renderBlame s0 ls) = expectedRecords fmt s0 ls ∧
    (parseBlameLines fmt (renderBlame s0 ls)).length = ls.length ∧
    (parseBlameLines fmt (renderBlame s0 ls)).map (fun b => b.lineNum) =
      (List.range' s0 ls.length).map some := by
  have hmain : ∀ (s0 : Nat) (ls : List SourceLine), (∀ l ∈ ls, WFSourceLine l) →
      blameGo fmt none (renderBlame s0 ls) = expectedRecords fmt s0 ls := by
    intro s0 ls
    induction ls generalizing s0 with
    | nil => intro _; rfl
    | cons l ls ih =>
      intro h
      rw [renderBlame, blameGo_group fmt none l s0 _ (h l (List.mem_cons_self _ _))]
      rw [expectedRecords, ih (s0 + 1) (fun x hx => h x (List.mem_cons_of_mem _ hx))]
  refine ⟨hmain s0 ls hwf, ?_, ?_⟩
  · rw [parseBlameLines, hmain s0 ls hwf, expectedRecords_length]
  · rw [parseBlameLines, hmain s0 ls hwf, expectedRecords_lineNums]

/-- C6 witness: a one-line stream at final line number 3. -/
theorem gitBlame_one_record_per_line_witness :
    (∀ l ∈ [SourceLine.mk "0123456789abcdef0123456789abcdef01234567" "Alice" 1700000000
      "fix" "let x = 1"], WFSourceLine l) ∧
    parseBlameLines natToStr (renderBlame 3
      [SourceLine.mk "0123456789abcdef0123456789abcdef01234567" "Alice" 1700000000
        "fix" "let x = 1"]) =
      expectedRecords natToStr 3
        [SourceLine.mk "0123456789abcdef0123456789abcdef01234567" "Alice" 1700000000
          "fix" "let x = 1"] :=
  ⟨by decide, (gitBlame_one_record_per_line natToStr 3
    [SourceLine.mk "0123456789abcdef0123456789abcdef01234567" "Alice" 1700000000
      "fix" "let x = 1"] (by decide)).1⟩

/-! ### C9 -/

/-- C9: for every tool taking a project name and every registry state in
which the name is absent, the invocation fails with the `ProjectNotFound`
error (for the git tools wrapped in the handler's `Failed to ...` prefix)
and the collaborator-call trace is empty: no filesystem or version-control
call is ever attempted, because name resolution happens strictly first. -/
theorem resolution_comes_first (r : Registry) (project : String)
    (habs : rlookup r project = none)
    (dir file commitHash : String) (startLine endLine : Option Nat)
    (searchInDiff : Bool) (maxCount : Nat) (fmt : Nat → String)
    (repoCheck : Except String Bool) (logRes : Except String (List RawCommit))
    (rawRes showRes statRes : Except String String)
    (readdir : String → Except String (List DirEntry))
    (readFileRes : String → Except String String)
    (access : String → Except String Unit)
    (rawArgs : List String → Except String String)
    (statusRes : Except String StatusInfo) (branchRes : Except String BranchInfo)
    (remotesRes : Except String (List RemoteInfo))
    (tagsRes : Except String (List String)) :
    runTool (listFilesTool r project dir readdir) =
      (Except.error (unknownProjectMessage r project), []) ∧
    runTool (readFileTool r project file readFileRes) =
      (Except.error (unknownProjectMessage r project), []) ∧
    runTool (removeProjectTool r project) =
      (Except.error (removeNotFoundMessage project), []) ∧
    runTool (getCommitHistoryTool r project repoCheck logRes) =
      (Except.error ("Failed to get commit history: " ++ unknownProjectMessage r project),
        []) ∧
    runTool (searchCommitsTool r project searchInDiff maxCount repoCheck logRes rawRes) =
      (Except.error ("Failed to search commits: " ++ unknownProjectMessage r project), []) ∧
    runTool (getCommitDetailsTool r project commitHash repoCheck logRes showRes statRes) =
      (Except.error ("Failed to get commit details: " ++ unknownProjectMessage r project),
        []) ∧
    runTool (getFileHistoryTool r project repoCheck logRes) =
      (Except.error ("Failed to get file history: " ++ unknownProjectMessage r project),
        []) ∧
    runTool (gitBlameTool r project file startLine endLine fmt repoCheck access rawArgs) =
      (Except.error ("Failed to get git blame: " ++ unknownProjectMessage r project), []) ∧
    runTool (getRepositoryInfoTool r project repoCheck statusRes branchRes remotesRes
        tagsRes) =
      (Except.error ("Failed to get repository info: " ++ unknownProjectMessage r project),
        []) ∧
    runTool (compareBranchesTool r project repoCheck logRes statRes) =
      (Except.error ("Failed to compare branches: " ++ unknownProjectMessage r project),
        []) := by
  have hgp : getProjectPath r project =
      Except.error (unknownProjectMessage r project) := by
    rw [getProjectPath, habs]
  have hrm : removeProject r project = Except.error (removeNotFoundMessage project) := by
    rw [removeProject, habs]
  refine ⟨?_, ?_, ?_, ?_, ?_, ?_, ?_, ?_, ?_, ?_⟩ <;>
    simp [runTool, listFilesTool, readFileTool, removeProjectTool, getCommitHistoryTool,
      searchCommitsTool, getCommitDetailsTool, getFileHistoryTool, gitBlameTool,
      getRepositoryInfoTool, compareBranchesTool, getGitInstanceM, wrapFail, bindC,
      liftRes, collab, pureC, throwC, hgp, hrm]

/-- C9 witness: every tool invoked on `missing` in the empty registry. -/
theorem resolution_comes_first_witness :
    rlookup ([] : Registry) "missing" = none ∧
    runTool (readFileTool [] "missing" "README.md" (fun _ => Except.ok "hello")) =
      (Except.error (unknownProjectMessage [] "missing"), []) ∧
    runTool (getCommitHistoryTool [] "missing" (Except.ok true) (Except.ok [])) =
      (Except.error ("Failed to get commit history: " ++ unknownProjectMessage [] "missing"),
        []) :=
  ⟨rfl,
    (resolution_comes_first [] "missing" rfl "" "README.md" "" none none false 50 natToStr
      (Except.ok true) (Except.ok []) (Except.ok "") (Except.ok "") (Except.ok "")
      (fun _ => Except.ok []) (fun _ => Except.ok "hello") (fun _ => Except.ok ())
      (fun _ => Except.ok "")
      (Except.ok (StatusInfo.mk "main" [] [] [] [] [] 0 0))
      (Except.ok (BranchInfo.mk [] "main")) (Except.ok []) (Except.ok [])).2.1,
    (resolution_comes_first [] "missing" rfl "" "README.md" "" none none false 50 natToStr
      (Except.ok true) (Except.ok []) (Except.ok "") (Except.ok "") (Except.ok "")
      (fun _ => Except.ok []) (fun _ => Except.ok "hello") (fun _ => Except.ok ())
      (fun _ => Except.ok "")
      (Except.ok (StatusInfo.mk "main" [] [] [] [] [] 0 0))
      (Except.ok (BranchInfo.mk [] "main")) (Except.ok []) (Except.ok [])).2.2.2.1⟩

end WorkspaceBridge
